import Mathlib

/-!
# Verification of `value_iteration` (src/value_iteration/value_iteration.py)

Shallow embedding of the Value Iteration solver.  The Python sets `S` and `A`
are modelled as Lean lists (capturing the iteration order the code relies on),
the Python dicts `V` and `policy` as functions `σ → ℚ` and `σ → Option α`
(the dicts are total on `S`; `policy` is initialised to `None`), and Python
floats as rationals.  The two `ValueError` raises are modelled by an error
type: `invalidGamma` for the gamma domain check, `emptyMax` for `max` applied
to an empty sequence.  The `warnings.warn` side effect and the number of
executed sweeps are recorded as observable fields of the result.
-/

set_option linter.unusedVariables false

namespace ValueIteration

/-- The two `ValueError` raises of the Python code: the gamma domain check at
the top of `value_iteration`, and `max()` applied to an empty sequence. -/
inductive VIError : Type
  | invalidGamma : VIError
  | emptyMax : VIError
deriving DecidableEq

/-- Result of the sweep loop: the final value function, whether the
non-convergence warning was emitted, and how many sweeps were executed. -/
structure LoopRes (σ : Type) where
  V : σ → ℚ
  warned : Bool
  sweeps : ℕ

/-- Result of `value_iteration`: the returned `policy` and `V` dicts, plus the
observable warning flag and the executed sweep count (instrumentation). -/
structure VIResult (σ α : Type) where
  policy : σ → Option α
  V : σ → ℚ
  warned : Bool
  sweeps : ℕ

/-- Python `max(xs)` on a list of numbers: `None`-free code raises on `[]`,
modelled by `Option`. -/
def listMax : List ℚ → Option ℚ
  | [] => none
  | x :: xs => some (xs.foldl max x)

/-- Python `max(l, key=f)`: first element attaining the maximal key (the
running maximum is replaced only on a strictly greater key). -/
def maxByKey {α : Type} (f : α → ℚ) : List α → Option α
  | [] => none
  | x :: xs => some (xs.foldl (fun b y => if f b < f y then y else b) x)

/-- The candidate value `R(s, a) + gamma * sum(P(s_prime, s, a) * V[s_prime] for s_prime in S)`. -/
def qvalue {σ α : Type} (S : List σ) (P : σ → σ → α → ℚ) (R : σ → α → ℚ)
    (gamma : ℚ) (V : σ → ℚ) (s : σ) (a : α) : ℚ :=
  R s a + gamma * (S.map (fun t => P t s a * V t)).sum

/-- Body of one sweep: the `for s in S` loop.  `newV` is the `new_V` dict
(initially a copy of `V`), `d` the running `delta`.  For each state the
candidate values over `A` are collected and their `max` taken (raising on an
empty `A`), `new_V[s]` is written, and `delta = max(delta, abs(V[s] - new_V[s]))`. -/
def sweepGo {σ α : Type} [DecidableEq σ] (S0 : List σ) (A : List α)
    (P : σ → σ → α → ℚ) (R : σ → α → ℚ) (gamma : ℚ) (V : σ → ℚ) :
    List σ → (σ → ℚ) → ℚ → Option ((σ → ℚ) × ℚ)
  | [], newV, d => some (newV, d)
  | s :: rest, newV, d =>
    match listMax (A.map (fun a => qvalue S0 P R gamma V s a)) with
    | none => none
    | some best =>
      sweepGo S0 A P R gamma V rest (Function.update newV s best) (max d |V s - best|)

/-- One full synchronous sweep over `S`, starting from `new_V = V.copy()` and
`delta = 0`; candidate values are computed from the pre-sweep `V` only. -/
def sweep {σ α : Type} [DecidableEq σ] (S : List σ) (A : List α)
    (P : σ → σ → α → ℚ) (R : σ → α → ℚ) (gamma : ℚ) (V : σ → ℚ) :
    Option ((σ → ℚ) × ℚ) :=
  sweepGo S A P R gamma V S V 0

/-- The `while True` loop.  `c` is `iteration_count` before the increment of
the current pass; the stop test `delta < tol or iteration_count >= iter_max`
uses the incremented count `c + 1`, and the warning fires exactly when
`iter_max <= c + 1`.  The loop body runs at most `max 1 (iter_max - c)` times
(the counter strictly increases toward the cap), so the structural `fuel`
argument never reaches the `fuel = 0` continue-branch when the caller supplies
`iter_max ≤ c + 1 + fuel`; that branch returns `none` and is proved
unreachable below (`viLoopF_some`). -/
def viLoopF {σ α : Type} [DecidableEq σ] (S : List σ) (A : List α)
    (P : σ → σ → α → ℚ) (R : σ → α → ℚ) (gamma tol : ℚ) (iter_max : ℕ) :
    ℕ → (σ → ℚ) → ℕ → Option (LoopRes σ)
  | 0, V, c =>
    match sweep S A P R gamma V with
    | none => none
    | some (V', d) =>
      if d < tol ∨ iter_max ≤ c + 1 then
        some ⟨V', if iter_max ≤ c + 1 then true else false, 1⟩
      else none
  | fuel + 1, V, c =>
    match sweep S A P R gamma V with
    | none => none
    | some (V', d) =>
      if d < tol ∨ iter_max ≤ c + 1 then
        some ⟨V', if iter_max ≤ c + 1 then true else false, 1⟩
      else
        match viLoopF S A P R gamma tol iter_max fuel V' (c + 1) with
        | none => none
        | some lr => some ⟨lr.V, lr.warned, lr.sweeps + 1⟩

/-- The final policy-extraction pass: `for s in S: policy[s] = max(A, key=...)`,
against the value function `V` fixed at loop exit. -/
def extractGo {σ α : Type} [DecidableEq σ] (S0 : List σ) (A : List α)
    (P : σ → σ → α → ℚ) (R : σ → α → ℚ) (gamma : ℚ) (V : σ → ℚ) :
    List σ → (σ → Option α) → Option (σ → Option α)
  | [], pol => some pol
  | s :: rest, pol =>
    match maxByKey (fun a => qvalue S0 P R gamma V s a) A with
    | none => none
    | some b => extractGo S0 A P R gamma V rest (Function.update pol s (some b))

/-- Policy extraction over all of `S`, from the initial all-`None` policy. -/
def extractPolicy {σ α : Type} [DecidableEq σ] (S : List σ) (A : List α)
    (P : σ → σ → α → ℚ) (R : σ → α → ℚ) (gamma : ℚ) (V : σ → ℚ) :
    Option (σ → Option α) :=
  extractGo S A P R gamma V S (fun _ => none)

/-- The Python `value_iteration` function.  Validates `0 < gamma < 1` first
(raising `invalidGamma` otherwise), initialises `V[s] = 0`, runs the sweep
loop from `iteration_count = 1`, then extracts the greedy policy from the
final `V`.  A `none` from the loop or the extraction is the `ValueError` of
`max` on an empty sequence (`emptyMax`); the loop fuel `iter_max` is proved
sufficient, so no other `none` source exists. -/
def value_iteration {σ α : Type} [DecidableEq σ] (S : List σ) (A : List α)
    (P : σ → σ → α → ℚ) (R : σ → α → ℚ) (gamma tol : ℚ) (iter_max : ℕ) :
    Except VIError (VIResult σ α) :=
  if 0 < gamma ∧ gamma < 1 then
    match viLoopF S A P R gamma tol iter_max iter_max (fun _ => 0) 1 with
    | none => Except.error VIError.emptyMax
    | some lr =>
      match extractPolicy S A P R gamma lr.V with
      | none => Except.error VIError.emptyMax
      | some pol => Except.ok ⟨pol, lr.V, lr.warned, lr.sweeps⟩
  else Except.error VIError.invalidGamma

/-- The value function after `k` sweeps, starting from the all-zero
initialisation (the successive `V`s the loop would visit). -/
def nthV {σ α : Type} [DecidableEq σ] (S : List σ) (A : List α)
    (P : σ → σ → α → ℚ) (R : σ → α → ℚ) (gamma : ℚ) : ℕ → Option (σ → ℚ)
  | 0 => some (fun _ => 0)
  | k + 1 =>
    match nthV S A P R gamma k with
    | none => none
    | some V =>
      match sweep S A P R gamma V with
      | none => none
      | some p => some p.1

/-- Result (new value function, delta) of sweep number `k + 1`. -/
def nthSweep {σ α : Type} [DecidableEq σ] (S : List σ) (A : List α)
    (P : σ → σ → α → ℚ) (R : σ → α → ℚ) (gamma : ℚ) (k : ℕ) :
    Option ((σ → ℚ) × ℚ) :=
  match nthV S A P R gamma k with
  | none => none
  | some V => sweep S A P R gamma V

/-- Holds when `b` is the first element of `l` attaining the maximal value of `f`
(the tie-break of the spec: first-encountered maximising action). -/
def isFirstArgmax {α : Type} (f : α → ℚ) (l : List α) (b : α) : Prop :=
  ∃ l₁ l₂, l = l₁ ++ b :: l₂ ∧ (∀ y ∈ l₁, f y < f b) ∧ ∀ y ∈ l, f y ≤ f b

section Lemmas

variable {σ α : Type} [DecidableEq σ]
variable (S S0 : List σ) (A : List α) (P : σ → σ → α → ℚ) (R : σ → α → ℚ)
variable (gamma tol : ℚ) (iter_max : ℕ)

/-- Fuel-case-free unfolding of one pass of the sweep loop, convenient for
rewriting with numeral fuel values. -/
theorem viLoopF_eq (fuel : ℕ) (V : σ → ℚ) (c : ℕ) :
    viLoopF S A P R gamma tol iter_max fuel V c =
      match sweep S A P R gamma V with
      | none => none
      | some (V', d) =>
        if d < tol ∨ iter_max ≤ c + 1 then
          some ⟨V', if iter_max ≤ c + 1 then true else false, 1⟩
        else if fuel = 0 then none
        else
          match viLoopF S A P R gamma tol iter_max (fuel - 1) V' (c + 1) with
          | none => none
          | some lr => some ⟨lr.V, lr.warned, lr.sweeps + 1⟩ := by
  match fuel with
  | 0 =>
    simp only [viLoopF]
    cases sweep S A P R gamma V with
    | none => rfl
    | some p =>
      by_cases h : p.2 < tol ∨ iter_max ≤ c + 1 <;> simp [h]
  | fuel + 1 =>
    simp only [viLoopF]
    cases sweep S A P R gamma V with
    | none => rfl
    | some p =>
      by_cases h : p.2 < tol ∨ iter_max ≤ c + 1 <;> simp [h]

/-- The running `max` of a fold never drops below its start value. -/
theorem foldl_max_start_le : ∀ (xs : List ℚ) (a : ℚ), a ≤ xs.foldl max a := by
  intro xs
  induction xs with
  | nil => intro a; exact le_refl a
  | cons x xs ih =>
    intro a
    exact le_trans (le_max_left a x) (ih (max a x))

/-- Every element of the list is below the fold of `max`. -/
theorem foldl_max_mem_le : ∀ (xs : List ℚ) (a : ℚ), ∀ y ∈ xs, y ≤ xs.foldl max a := by
  intro xs
  induction xs with
  | nil => intro a y hy; cases hy
  | cons x xs ih =>
    intro a y hy
    rcases List.mem_cons.mp hy with h | h
    · subst h
      exact le_trans (le_max_right a y) (foldl_max_start_le xs (max a y))
    · exact ih (max a x) y h

/-- The fold of `max` is the start value or an element of the list. -/
theorem foldl_max_cases : ∀ (xs : List ℚ) (a : ℚ),
    xs.foldl max a = a ∨ xs.foldl max a ∈ xs := by
  intro xs
  induction xs with
  | nil => intro a; exact Or.inl rfl
  | cons x xs ih =>
    intro a
    rcases ih (max a x) with h | h
    · rcases max_choice a x with hm | hm
      · exact Or.inl (h.trans hm)
      · exact Or.inr (List.mem_cons.mpr (Or.inl (h.trans hm)))
    · exact Or.inr (List.mem_cons.mpr (Or.inr h))

/-- Python `max(xs)` returns an element of `xs` bounding every element. -/
theorem listMax_spec {l : List ℚ} {m : ℚ} (h : listMax l = some m) :
    m ∈ l ∧ ∀ y ∈ l, y ≤ m := by
  match l with
  | [] => cases h
  | x :: xs =>
    have hm : m = xs.foldl max x := (Option.some.inj h).symm
    subst hm
    constructor
    · rcases foldl_max_cases xs x with h' | h'
      · rw [h']; exact List.mem_cons_self x xs
      · exact List.mem_cons.mpr (Or.inr h')
    · intro y hy
      rcases List.mem_cons.mp hy with h' | h'
      · subst h'; exact foldl_max_start_le xs y
      · exact foldl_max_mem_le xs x y h'

/-- Python `max(xs)` succeeds on every non-empty list. -/
theorem listMax_isSome {l : List ℚ} (h : l ≠ []) : ∃ m, listMax l = some m := by
  match l with
  | [] => exact absurd rfl h
  | x :: xs => exact ⟨xs.foldl max x, rfl⟩

/-- Invariant of the fold inside `maxByKey`: the result dominates the start
and all scanned elements, and is either the start or the first strict
improvement in the list. -/
theorem maxByKey_go_spec {α : Type} (f : α → ℚ) :
    ∀ (xs : List α) (cur : α),
      f cur ≤ f (xs.foldl (fun b y => if f b < f y then y else b) cur) ∧
      (∀ y ∈ xs, f y ≤ f (xs.foldl (fun b y => if f b < f y then y else b) cur)) ∧
      (xs.foldl (fun b y => if f b < f y then y else b) cur = cur ∨
        ∃ l₁ l₂, xs = l₁ ++ (xs.foldl (fun b y => if f b < f y then y else b) cur) :: l₂ ∧
          f cur < f (xs.foldl (fun b y => if f b < f y then y else b) cur) ∧
          ∀ y ∈ l₁, f y < f (xs.foldl (fun b y => if f b < f y then y else b) cur)) := by
  intro xs
  induction xs with
  | nil =>
    intro cur
    exact ⟨le_refl _, fun y hy => absurd hy (List.not_mem_nil y), Or.inl rfl⟩
  | cons x xs ih =>
    intro cur
    by_cases h : f cur < f x
    · have hstep : (x :: xs).foldl (fun b y => if f b < f y then y else b) cur =
          xs.foldl (fun b y => if f b < f y then y else b) x := by
        simp [List.foldl_cons, if_pos h]
      obtain ⟨ih1, ih2, ih3⟩ := ih x
      rw [hstep]
      refine ⟨le_trans (le_of_lt h) ih1, ?_, ?_⟩
      · intro y hy
        rcases List.mem_cons.mp hy with h' | h'
        · subst h'; exact ih1
        · exact ih2 y h'
      · rcases ih3 with h' | ⟨l₁, l₂, heq, hcur, hall⟩
        · refine Or.inr ⟨[], xs, ?_, ?_, ?_⟩
          · simp [h']
          · rw [h']; exact h
          · intro y hy; cases hy
        · refine Or.inr ⟨x :: l₁, l₂, ?_, lt_trans h hcur, ?_⟩
          · rw [List.cons_append, ← heq]
          · intro y hy
            rcases List.mem_cons.mp hy with h' | h'
            · subst h'; exact hcur
            · exact hall y h'
    · have hstep : (x :: xs).foldl (fun b y => if f b < f y then y else b) cur =
          xs.foldl (fun b y => if f b < f y then y else b) cur := by
        simp [List.foldl_cons, if_neg h]
      obtain ⟨ih1, ih2, ih3⟩ := ih cur
      rw [hstep]
      refine ⟨ih1, ?_, ?_⟩
      · intro y hy
        rcases List.mem_cons.mp hy with h' | h'
        · subst h'; exact le_trans (le_of_not_lt h) ih1
        · exact ih2 y h'
      · rcases ih3 with h' | ⟨l₁, l₂, heq, hcur, hall⟩
        · exact Or.inl h'
        · refine Or.inr ⟨x :: l₁, l₂, ?_, hcur, ?_⟩
          · rw [List.cons_append, ← heq]
          · intro y hy
            rcases List.mem_cons.mp hy with h' | h'
            · subst h'; exact lt_of_le_of_lt (le_of_not_lt h) hcur
            · exact hall y h'

/-- Python `max(l, key=f)` returns the first element of `l` attaining the
maximal key: ties are broken by the first-encountered maximiser. -/
theorem maxByKey_isFirstArgmax {α : Type} {f : α → ℚ} {l : List α} {b : α}
    (h : maxByKey f l = some b) : isFirstArgmax f l b := by
  match l with
  | [] => cases h
  | x :: xs =>
    have hb : b = xs.foldl (fun b y => if f b < f y then y else b) x :=
      (Option.some.inj h).symm
    obtain ⟨h1, h2, h3⟩ := maxByKey_go_spec f xs x
    have hbound : ∀ y ∈ x :: xs, f y ≤ f b := by
      intro y hy
      rcases List.mem_cons.mp hy with h' | h'
      · subst h'; rw [hb]; exact h1
      · rw [hb]; exact h2 y h'
    rcases h3 with h' | ⟨l₁, l₂, heq, hcur, hall⟩
    · refine ⟨[], xs, ?_, ?_, hbound⟩
      · rw [List.nil_append, hb, h']
      · intro y hy; cases hy

    · refine ⟨x :: l₁, l₂, ?_, ?_, hbound⟩
      · rw [List.cons_append, heq, hb]
      · intro y hy
        rcases List.mem_cons.mp hy with h' | h'
        · subst h'; rw [hb]; exact hcur
        · rw [hb]; exact hall y h'

/-- Python `max(l, key=f)` succeeds on every non-empty list. -/
theorem maxByKey_isSome {α : Type} (f : α → ℚ) {l : List α} (h : l ≠ []) :
    ∃ b, maxByKey f l = some b := by
  match l with
  | [] => exact absurd rfl h
  | x :: xs => exact ⟨xs.foldl (fun b y => if f b < f y then y else b) x, rfl⟩

/-- Characterisation of the `for s in S` sweep body: it succeeds when `A` is
non-empty, leaves states outside the remaining list untouched, writes each
visited state the `max` of its candidate values computed from the pre-sweep
`V`, and accumulates `delta` as the running `max` of `abs(V[s] - new_V[s])`. -/
theorem sweepGo_spec (hA : A ≠ []) (V : σ → ℚ) :
    ∀ (rest : List σ) (newV : σ → ℚ) (d : ℚ),
      ∃ V' d', sweepGo S0 A P R gamma V rest newV d = some (V', d') ∧
        (∀ s, s ∉ rest → V' s = newV s) ∧
        (∀ s ∈ rest, ∃ b,
          listMax (A.map (fun a => qvalue S0 P R gamma V s a)) = some b ∧ V' s = b) ∧
        d' = ((rest.map (fun s => |V s - V' s|)).foldl max d) := by
  intro rest
  induction rest with
  | nil =>
    intro newV d
    refine ⟨newV, d, rfl, fun s _ => rfl, ?_, by simp⟩
    intro s hs; cases hs
  | cons s rest ih =>
    intro newV d
    have hmap : A.map (fun a => qvalue S0 P R gamma V s a) ≠ [] := by
      simpa using hA
    obtain ⟨best, hbest⟩ := listMax_isSome hmap
    obtain ⟨V', d', heq, hout, hin, hd⟩ :=
      ih (Function.update newV s best) (max d |V s - best|)
    have hVs : V' s = best := by
      by_cases hsr : s ∈ rest
      · obtain ⟨b, hb, hVb⟩ := hin s hsr
        rw [hVb]
        exact Option.some.inj (hb.symm.trans hbest)
      · rw [hout s hsr, Function.update_same]
    refine ⟨V', d', ?_, ?_, ?_, ?_⟩
    · simp only [sweepGo, hbest]
      exact heq
    · intro t ht
      have hts : t ≠ s := fun h => ht (h ▸ List.mem_cons_self s rest)
      have htr : t ∉ rest := fun h => ht (List.mem_cons.mpr (Or.inr h))
      rw [hout t htr, Function.update_noteq hts]
    · intro t ht
      rcases List.mem_cons.mp ht with h | h
      · subst h
        by_cases hsr : t ∈ rest
        · exact hin t hsr
        · exact ⟨best, hbest, by rw [hout t hsr, Function.update_same]⟩
      · exact hin t h
    · rw [hd, List.map_cons, List.foldl_cons, hVs]

/-- A full synchronous sweep, started from `new_V = V.copy()` and `delta = 0`:
every state of `S` gets the `max` of its Bellman candidates computed from the
pre-sweep `V`, other states keep their `V` value, and the returned `delta` is
the sup-norm distance between `V` and the new value function over `S`. -/
theorem sweep_spec (hA : A ≠ []) (V : σ → ℚ) :
    ∃ V' d', sweep S A P R gamma V = some (V', d') ∧
      (∀ s, s ∉ S → V' s = V s) ∧
      (∀ s ∈ S, ∃ b,
        listMax (A.map (fun a => qvalue S P R gamma V s a)) = some b ∧ V' s = b) ∧
      d' = ((S.map (fun s => |V s - V' s|)).foldl max 0) :=
  sweepGo_spec S A P R gamma hA V S V 0

/-- The running `delta` of a sweep never decreases. -/
theorem sweepGo_delta_mono (V : σ → ℚ) :
    ∀ (rest : List σ) (newV : σ → ℚ) (d : ℚ) (V' : σ → ℚ) (d' : ℚ),
      sweepGo S0 A P R gamma V rest newV d = some (V', d') → d ≤ d' := by
  intro rest
  induction rest with
  | nil =>
    intro newV d V' d' h
    simp only [sweepGo] at h
    obtain ⟨-, h2⟩ := Prod.mk.injEq .. ▸ Option.some.inj h
    exact le_of_eq h2
  | cons s rest ih =>
    intro newV d V' d' h
    simp only [sweepGo] at h
    cases hres : listMax (A.map (fun a => qvalue S0 P R gamma V s a)) with
    | none => rw [hres] at h; cases h
    | some best =>
      rw [hres] at h
      exact le_trans (le_max_left d _) (ih _ _ _ _ h)

/-- The `delta` of a full sweep is non-negative (it starts at `0`). -/
theorem sweep_delta_nonneg (V V' : σ → ℚ) (d' : ℚ)
    (h : sweep S A P R gamma V = some (V', d')) : 0 ≤ d' :=
  sweepGo_delta_mono S A P R gamma V S V 0 V' d' h

/-- With an empty action list, the first state of a sweep hits `max([])`,
the Python `ValueError`. -/
theorem sweep_empty_actions (V : σ → ℚ) (s : σ) (rest : List σ) (hS : S = s :: rest) :
    sweep S ([] : List α) P R gamma V = none := by
  rw [sweep, hS]
  rfl

/-- The loop body always runs at least once (`while True`). -/
theorem viLoopF_sweeps_pos (fuel : ℕ) (V : σ → ℚ) (c : ℕ) (lr : LoopRes σ)
    (h : viLoopF S A P R gamma tol iter_max fuel V c = some lr) : 1 ≤ lr.sweeps := by
  match fuel with
  | 0 =>
    simp only [viLoopF] at h
    split at h
    · exact Option.noConfusion h
    · split at h
      · injection h with h
        subst h
        exact le_refl 1
      · exact Option.noConfusion h
  | fuel + 1 =>
    simp only [viLoopF] at h
    split at h
    · exact Option.noConfusion h
    · split at h
      · injection h with h
        subst h
        exact le_refl 1
      · split at h
        · exact Option.noConfusion h
        · injection h with h
          subst h
          exact Nat.succ_le_succ (Nat.zero_le _)

/-- With a non-empty action list and fuel at least `iter_max - c - 1`, the
loop terminates normally: its only `none` source is `max` on an empty list. -/
theorem viLoopF_some (hA : A ≠ []) :
    ∀ (fuel : ℕ) (V : σ → ℚ) (c : ℕ), iter_max ≤ c + 1 + fuel →
      ∃ lr, viLoopF S A P R gamma tol iter_max fuel V c = some lr := by
  intro fuel
  induction fuel with
  | zero =>
    intro V c hfuel
    obtain ⟨V', d', hs, -, -, -⟩ := sweep_spec S A P R gamma hA V
    have hstop : d' < tol ∨ iter_max ≤ c + 1 := Or.inr (by omega)
    refine ⟨⟨V', if iter_max ≤ c + 1 then true else false, 1⟩, ?_⟩
    simp only [viLoopF, hs]
    rw [if_pos hstop]
  | succ fuel ih =>
    intro V c hfuel
    obtain ⟨V', d', hs, -, -, -⟩ := sweep_spec S A P R gamma hA V
    by_cases hc : d' < tol ∨ iter_max ≤ c + 1
    · refine ⟨⟨V', if iter_max ≤ c + 1 then true else false, 1⟩, ?_⟩
      simp only [viLoopF, hs]
      rw [if_pos hc]
    · obtain ⟨lr', hr⟩ := ih V' (c + 1) (by omega)
      refine ⟨⟨lr'.V, lr'.warned, lr'.sweeps + 1⟩, ?_⟩
      simp only [viLoopF, hs]
      rw [if_neg hc, hr]

/-- The warning flag of the loop is set exactly when the final value of
`iteration_count` (its start value `c` plus one per executed sweep) has
reached `iter_max`. -/
theorem viLoopF_warned :
    ∀ (fuel : ℕ) (V : σ → ℚ) (c : ℕ) (lr : LoopRes σ),
      viLoopF S A P R gamma tol iter_max fuel V c = some lr →
      (lr.warned = true ↔ iter_max ≤ c + lr.sweeps) := by
  intro fuel
  induction fuel with
  | zero =>
    intro V c lr h
    simp only [viLoopF] at h
    split at h
    · exact Option.noConfusion h
    · split at h
      · injection h with h
        subst h
        by_cases hm : iter_max ≤ c + 1
        · simp only [if_pos hm]
          simpa using hm
        · simp only [if_neg hm]
          simpa using hm
      · exact Option.noConfusion h
  | succ fuel ih =>
    intro V c lr h
    simp only [viLoopF] at h
    split at h
    · exact Option.noConfusion h
    · split at h
      · injection h with h
        subst h
        by_cases hm : iter_max ≤ c + 1
        · simp only [if_pos hm]
          simpa using hm
        · simp only [if_neg hm]
          simpa using hm
      · split at h
        · exact Option.noConfusion h
        · rename_i xo1 V' d hs hcond xo2 lr' hr
          injection h with h
          subst h
          have hih := ih V' (c + 1) lr' hr
          simp only at hih ⊢
          rw [hih]
          omega

/-- The definition `nthSweep` is the sweep applied to the `j`-th iterate. -/
theorem nthSweep_of_nthV (j : ℕ) (V : σ → ℚ)
    (h : nthV S A P R gamma j = some V) :
    nthSweep S A P R gamma j = sweep S A P R gamma V := by
  simp only [nthSweep, h]

/-- Successor iterate from a successful sweep. -/
theorem nthV_succ_of (j : ℕ) (V : σ → ℚ) (p : (σ → ℚ) × ℚ)
    (h : nthV S A P R gamma j = some V) (hs : sweep S A P R gamma V = some p) :
    nthV S A P R gamma (j + 1) = some p.1 := by
  simp only [nthV, h, hs]

/-- When no sweep that the budget allows to run (sweep number `k`, executed
at counter `k + 1`, exists only when `k + 1 < iter_max` or `k = 0`) achieves
`delta < tol`, the loop started on the `j`-th iterate at counter `j + 1` runs
its counter up to `iter_max` and performs exactly `max 1 (iter_max - (j + 1))`
sweeps.  Only the sweeps after which the loop may continue — those with
`k + 1 < iter_max` — need the delta bound: on the budget-exhausting sweep the
loop stops whatever its delta is. -/
theorem viLoopF_count (hA : A ≠ [])
    (hnc : ∀ (k : ℕ) (p : (σ → ℚ) × ℚ), k + 1 < iter_max →
      nthSweep S A P R gamma k = some p → tol ≤ p.2) :
    ∀ (fuel j : ℕ) (V : σ → ℚ), nthV S A P R gamma j = some V →
      iter_max ≤ j + 2 + fuel →
      ∃ lr, viLoopF S A P R gamma tol iter_max fuel V (j + 1) = some lr ∧
        lr.sweeps = max 1 (iter_max - (j + 1)) := by
  intro fuel
  induction fuel with
  | zero =>
    intro j V hj hfuel
    obtain ⟨V', d', hs, -, -, -⟩ := sweep_spec S A P R gamma hA V
    have hstop : d' < tol ∨ iter_max ≤ (j + 1) + 1 := Or.inr (by omega)
    refine ⟨⟨V', if iter_max ≤ (j + 1) + 1 then true else false, 1⟩, ?_, ?_⟩
    · simp only [viLoopF, hs]
      rw [if_pos hstop]
    · simp only
      omega
  | succ fuel ih =>
    intro j V hj hfuel
    obtain ⟨V', d', hs, -, -, -⟩ := sweep_spec S A P R gamma hA V
    by_cases hm : iter_max ≤ (j + 1) + 1
    · have hstop : d' < tol ∨ iter_max ≤ (j + 1) + 1 := Or.inr hm
      refine ⟨⟨V', if iter_max ≤ (j + 1) + 1 then true else false, 1⟩, ?_, ?_⟩
      · simp only [viLoopF, hs]
        rw [if_pos hstop]
      · simp only
        omega
    · have hd : tol ≤ d' := by
        have hns := nthSweep_of_nthV S A P R gamma j V hj
        exact hnc j (V', d') (by omega) (hns.trans hs)
      have hc : ¬(d' < tol ∨ iter_max ≤ (j + 1) + 1) := by
        push_neg
        exact ⟨hd, by omega⟩
      have hj' : nthV S A P R gamma (j + 1) = some V' :=
        nthV_succ_of S A P R gamma j V (V', d') hj hs
      obtain ⟨lr', hr, hsw⟩ := ih (j + 1) V' hj' (by omega)
      refine ⟨⟨lr'.V, lr'.warned, lr'.sweeps + 1⟩, ?_, ?_⟩
      · simp only [viLoopF, hs]
        rw [if_neg hc, hr]
      · simp only
        omega

/-- States not visited by the extraction pass keep their previous policy. -/
theorem extractGo_unchanged (V : σ → ℚ) :
    ∀ (rest : List σ) (pol pol' : σ → Option α),
      extractGo S0 A P R gamma V rest pol = some pol' →
      ∀ s, s ∉ rest → pol' s = pol s := by
  intro rest
  induction rest with
  | nil =>
    intro pol pol' h s hs
    simp only [extractGo] at h
    rw [← Option.some.inj h]
  | cons t rest ih =>
    intro pol pol' h s hs
    simp only [extractGo] at h
    split at h
    · exact Option.noConfusion h
    · rename_i xo b hb
      have hst : s ≠ t := fun hst => hs (hst ▸ List.mem_cons_self t rest)
      have hsr : s ∉ rest := fun hsr => hs (List.mem_cons.mpr (Or.inr hsr))
      rw [ih _ _ h s hsr, Function.update_noteq hst]

/-- Every state visited by the extraction pass gets `max(A, key=...)`. -/
theorem extractGo_mem (V : σ → ℚ) :
    ∀ (rest : List σ) (pol pol' : σ → Option α),
      extractGo S0 A P R gamma V rest pol = some pol' →
      ∀ s ∈ rest, ∃ b,
        maxByKey (fun a => qvalue S0 P R gamma V s a) A = some b ∧ pol' s = some b := by
  intro rest
  induction rest with
  | nil =>
    intro pol pol' h s hs
    cases hs
  | cons t rest ih =>
    intro pol pol' h s hs
    simp only [extractGo] at h
    split at h
    · exact Option.noConfusion h
    · rename_i xo b hb
      rcases List.mem_cons.mp hs with h' | h'
      · subst h'
        by_cases hsr : s ∈ rest
        · exact ih _ _ h s hsr
        · refine ⟨b, hb, ?_⟩
          rw [extractGo_unchanged S0 A P R gamma V rest _ _ h s hsr,
            Function.update_same]
      · exact ih _ _ h s h'

/-- The extraction pass succeeds whenever `A` is non-empty. -/
theorem extractGo_some (hA : A ≠ []) (V : σ → ℚ) :
    ∀ (rest : List σ) (pol : σ → Option α),
      ∃ pol', extractGo S0 A P R gamma V rest pol = some pol' := by
  intro rest
  induction rest with
  | nil =>
    intro pol
    exact ⟨pol, rfl⟩
  | cons t rest ih =>
    intro pol
    obtain ⟨b, hb⟩ := maxByKey_isSome (fun a => qvalue S0 P R gamma V t a) hA
    obtain ⟨pol', hrec⟩ := ih (Function.update pol t (some b))
    refine ⟨pol', ?_⟩
    simp only [extractGo, hb]
    exact hrec

/-- Destructor for a successful run of `value_iteration`: the returned fields
come from the sweep loop started at the all-zero value function with
`iteration_count = 1`, and the policy from the extraction pass against the
final value function of the loop. -/
theorem value_iteration_ok (r : VIResult σ α)
    (h : value_iteration S A P R gamma tol iter_max = Except.ok r) :
    (0 < gamma ∧ gamma < 1) ∧
    ∃ lr, viLoopF S A P R gamma tol iter_max iter_max (fun _ => 0) 1 = some lr ∧
      extractPolicy S A P R gamma lr.V = some r.policy ∧
      r.V = lr.V ∧ r.warned = lr.warned ∧ r.sweeps = lr.sweeps := by
  simp only [value_iteration] at h
  split at h
  · rename_i hgamma
    split at h
    · exact Except.noConfusion h
    · rename_i xo lr hlr
      split at h
      · exact Except.noConfusion h
      · rename_i xp pol hpol
        injection h with h
        subst h
        exact ⟨hgamma, lr, hlr, hpol, rfl, rfl, rfl⟩
  · exact Except.noConfusion h

/-- Constructor for a successful run of `value_iteration`. -/
theorem value_iteration_ok_of (hgamma : 0 < gamma ∧ gamma < 1) (lr : LoopRes σ)
    (pol : σ → Option α)
    (hlr : viLoopF S A P R gamma tol iter_max iter_max (fun _ => 0) 1 = some lr)
    (hpol : extractPolicy S A P R gamma lr.V = some pol) :
    value_iteration S A P R gamma tol iter_max =
      Except.ok ⟨pol, lr.V, lr.warned, lr.sweeps⟩ := by
  simp only [value_iteration, if_pos hgamma, hlr, hpol]

/-- Delta of any successful sweep in the iterate sequence is non-negative. -/
theorem nthSweep_delta_nonneg (k : ℕ) (p : (σ → ℚ) × ℚ)
    (h : nthSweep S A P R gamma k = some p) : 0 ≤ p.2 := by
  obtain ⟨V', d⟩ := p
  simp only [nthSweep] at h
  split at h
  · exact Option.noConfusion h
  · rename_i xo V hV
    exact sweep_delta_nonneg S A P R gamma V V' d h

end Lemmas

section Claims

/-- C1: for every non-empty state list `S` and non-empty action list `A`, the
value iteration starts from `V[s] = 0`, and every sweep maps the previous
iterate `Vk` to a `V'` whose value at each `s ∈ S` is
`max_a (R(s,a) + gamma * Σ_{t∈S} P(t,s,a) * Vk[t])`, computed entirely from
the values of the previous sweep (synchronous/Jacobi update: `V'` appears nowhere
on the right-hand side). -/
theorem claim1_sync_bellman_sweep (σ α : Type) [DecidableEq σ]
    (S : List σ) (A : List α) (P : σ → σ → α → ℚ) (R : σ → α → ℚ) (gamma : ℚ)
    (hA : A ≠ []) (k : ℕ) (Vk : σ → ℚ) (hk : nthV S A P R gamma k = some Vk) :
    nthV S A P R gamma 0 = some (fun _ => (0 : ℚ)) ∧
    ∃ V', nthV S A P R gamma (k + 1) = some V' ∧
      ∀ s ∈ S, (∃ a ∈ A, V' s = qvalue S P R gamma Vk s a) ∧
        ∀ a ∈ A, qvalue S P R gamma Vk s a ≤ V' s := by
  obtain ⟨V', d, hs, hout, hin, hd⟩ := sweep_spec S A P R gamma hA Vk
  refine ⟨rfl, V', nthV_succ_of S A P R gamma k Vk (V', d) hk hs, ?_⟩
  intro s hsS
  obtain ⟨b, hb, hVb⟩ := hin s hsS
  obtain ⟨hmem, hbound⟩ := listMax_spec hb
  constructor
  · obtain ⟨a, haA, hqa⟩ := List.mem_map.mp hmem
    exact ⟨a, haA, by rw [hVb, hqa]⟩
  · intro a haA
    rw [hVb]
    exact hbound _ (List.mem_map_of_mem _ haA)

/-- A concrete single-state instance of `claim1_sync_bellman_sweep`. -/
theorem claim1_witness :
    nthV [0] [0] (fun _ _ _ => (1 : ℚ)) (fun _ _ => (1 : ℚ)) (1/2) 0 =
      some (fun _ => (0 : ℚ)) ∧
    ∃ V', nthV [0] [0] (fun _ _ _ => (1 : ℚ)) (fun _ _ => (1 : ℚ)) (1/2) 1 = some V' ∧
      ∀ s ∈ [0], (∃ a ∈ [0],
          V' s = qvalue [0] (fun _ _ _ => (1 : ℚ)) (fun _ _ => (1 : ℚ)) (1/2) (fun _ => 0) s a) ∧
        ∀ a ∈ [0],
          qvalue [0] (fun _ _ _ => (1 : ℚ)) (fun _ _ => (1 : ℚ)) (1/2) (fun _ => 0) s a ≤ V' s :=
  claim1_sync_bellman_sweep ℕ ℕ [0] [0] (fun _ _ _ => (1 : ℚ)) (fun _ _ => (1 : ℚ))
    (1/2) (by simp) 0 (fun _ => 0) rfl

/-- C2: each sweep returns `delta` equal to the running maximum, over the
states of `S` in order, of `abs(V[s] - new_V[s])` starting from `0` (the
sup-norm distance between successive value functions over `S`), and the sweep
loop stops at the current sweep as converged whenever `delta < tol`;
conversely a loop run that stops at its first sweep does so only because
`delta < tol` or the incremented iteration count reached `iter_max`. -/
theorem claim2_delta_sup_norm_stop (σ α : Type) [DecidableEq σ]
    (S : List σ) (A : List α) (P : σ → σ → α → ℚ) (R : σ → α → ℚ)
    (gamma tol : ℚ) (iter_max : ℕ) (hA : A ≠ []) (V : σ → ℚ) (fuel c : ℕ) :
    (∃ V' d, sweep S A P R gamma V = some (V', d) ∧
      d = ((S.map (fun s => |V s - V' s|)).foldl max 0)) ∧
    (∀ V' d, sweep S A P R gamma V = some (V', d) → d < tol →
      viLoopF S A P R gamma tol iter_max fuel V c =
        some ⟨V', if iter_max ≤ c + 1 then true else false, 1⟩) ∧
    (∀ lr, viLoopF S A P R gamma tol iter_max fuel V c = some lr → lr.sweeps = 1 →
      ∃ V' d, sweep S A P R gamma V = some (V', d) ∧ lr.V = V' ∧
        (d < tol ∨ iter_max ≤ c + 1)) := by
  refine ⟨?_, ?_, ?_⟩
  · obtain ⟨V', d, hs, -, -, hd⟩ := sweep_spec S A P R gamma hA V
    exact ⟨V', d, hs, hd⟩
  · intro V' d hs hd
    cases fuel with
    | zero =>
      simp only [viLoopF, hs]
      rw [if_pos (Or.inl hd)]
    | succ fuel =>
      simp only [viLoopF, hs]
      rw [if_pos (Or.inl hd)]
  · intro lr h h1
    cases fuel with
    | zero =>
      simp only [viLoopF] at h
      split at h
      · exact Option.noConfusion h
      · rename_i xo V' d hs
        split at h
        · rename_i hcond
          injection h with h
          subst h
          exact ⟨V', d, hs, rfl, hcond⟩
        · exact Option.noConfusion h
    | succ fuel =>
      simp only [viLoopF] at h
      split at h
      · exact Option.noConfusion h
      · rename_i xo V' d hs
        split at h
        · rename_i hcond
          injection h with h
          subst h
          exact ⟨V', d, hs, rfl, hcond⟩
        · split at h
          · exact Option.noConfusion h
          · rename_i hcond xi lr' hr
            injection h with h
            subst h
            have := viLoopF_sweeps_pos S A P R gamma tol iter_max fuel V' (c + 1) lr' hr
            simp only at h1
            omega

/-- A concrete single-state instance of `claim2_delta_sup_norm_stop`. -/
theorem claim2_witness :
    (∃ V' d, sweep [0] [0] (fun _ _ _ => (1 : ℚ)) (fun _ _ => (1 : ℚ)) (1/2) (fun _ => 0) =
        some (V', d) ∧
      d = (([0].map (fun s => |(fun _ => (0 : ℚ)) s - V' s|)).foldl max 0)) ∧
    (∀ V' d, sweep [0] [0] (fun _ _ _ => (1 : ℚ)) (fun _ _ => (1 : ℚ)) (1/2) (fun _ => 0) =
        some (V', d) → d < 2 →
      viLoopF [0] [0] (fun _ _ _ => (1 : ℚ)) (fun _ _ => (1 : ℚ)) (1/2) 2 5 5 (fun _ => 0) 1 =
        some ⟨V', if 5 ≤ 1 + 1 then true else false, 1⟩) ∧
    (∀ lr, viLoopF [0] [0] (fun _ _ _ => (1 : ℚ)) (fun _ _ => (1 : ℚ)) (1/2) 2 5 5
        (fun _ => 0) 1 = some lr → lr.sweeps = 1 →
      ∃ V' d, sweep [0] [0] (fun _ _ _ => (1 : ℚ)) (fun _ _ => (1 : ℚ)) (1/2) (fun _ => 0) =
        some (V', d) ∧ lr.V = V' ∧ (d < 2 ∨ 5 ≤ 1 + 1)) :=
  claim2_delta_sup_norm_stop ℕ ℕ [0] [0] (fun _ _ _ => (1 : ℚ)) (fun _ _ => (1 : ℚ))
    (1/2) 2 5 (by simp) (fun _ => 0) 5 1

/-- C3: on every successful run, the returned policy is the result of the
extraction pass against the returned (final) value function, and it maps each
state `s ∈ S` to the first action of `A` (in iteration order) maximising
`R(s,a) + gamma * Σ_{t∈S} P(t,s,a) * V[t]` for the returned `V`. -/
theorem claim3_greedy_policy_extraction (σ α : Type) [DecidableEq σ]
    (S : List σ) (A : List α) (P : σ → σ → α → ℚ) (R : σ → α → ℚ)
    (gamma tol : ℚ) (iter_max : ℕ) (r : VIResult σ α)
    (hr : value_iteration S A P R gamma tol iter_max = Except.ok r) :
    extractPolicy S A P R gamma r.V = some r.policy ∧
    ∀ s ∈ S, ∃ b, r.policy s = some b ∧
      isFirstArgmax (fun a => qvalue S P R gamma r.V s a) A b := by
  obtain ⟨-, lr, hlr, hpol, hV, -, -⟩ :=
    value_iteration_ok S A P R gamma tol iter_max r hr
  rw [hV]
  refine ⟨hpol, ?_⟩
  intro s hsS
  obtain ⟨b, hb, hpolb⟩ :=
    extractGo_mem S A P R gamma lr.V S (fun _ => none) r.policy hpol s hsS
  exact ⟨b, hpolb, maxByKey_isFirstArgmax hb⟩

/-- C4: the gamma domain check runs first: for every gamma outside the open
interval `(0, 1)` the call fails with the gamma `ValueError` uniformly in all
other arguments (so before any sweep, and without consulting `P` or `R`),
while for gamma strictly inside `(0, 1)` the gamma error is never raised. -/
theorem claim4_gamma_domain (σ α : Type) [DecidableEq σ] (gamma : ℚ) :
    (¬(0 < gamma ∧ gamma < 1) →
      ∀ (S : List σ) (A : List α) (P : σ → σ → α → ℚ) (R : σ → α → ℚ)
        (tol : ℚ) (iter_max : ℕ),
        value_iteration S A P R gamma tol iter_max =
          Except.error VIError.invalidGamma) ∧
    ((0 < gamma ∧ gamma < 1) →
      ∀ (S : List σ) (A : List α) (P : σ → σ → α → ℚ) (R : σ → α → ℚ)
        (tol : ℚ) (iter_max : ℕ),
        value_iteration S A P R gamma tol iter_max ≠
          Except.error VIError.invalidGamma) := by
  constructor
  · intro h S A P R tol iter_max
    simp only [value_iteration, if_neg h]
  · intro h S A P R tol iter_max
    simp only [value_iteration, if_pos h]
    cases hl : viLoopF S A P R gamma tol iter_max iter_max (fun _ => 0) 1 with
    | none => simp
    | some lr =>
      cases hp : extractPolicy S A P R gamma lr.V with
      | none => simp [hp]
      | some pol => simp [hp]

/-- Both halves of `claim4_gamma_domain` at concrete inputs. -/
theorem claim4_witness :
    value_iteration [0] [0] (fun _ _ _ => (1 : ℚ)) (fun _ _ => (1 : ℚ)) 2 1 5 =
      Except.error VIError.invalidGamma ∧
    value_iteration [0] [0] (fun _ _ _ => (1 : ℚ)) (fun _ _ => (1 : ℚ)) (1/2) 1 5 ≠
      Except.error VIError.invalidGamma :=
  ⟨(claim4_gamma_domain ℕ ℕ 2).1 (by norm_num) [0] [0] (fun _ _ _ => 1) (fun _ _ => 1) 1 5,
    (claim4_gamma_domain ℕ ℕ (1/2)).2 (by norm_num) [0] [0] (fun _ _ _ => 1) (fun _ _ => 1) 1 5⟩

/-- C5 counterexample: single-state MDP with `P = 1`, `R = 1`, `gamma = 1/2`,
`tol = 1/1000000`, `iter_max = 5`.  The deltas of the four executed sweeps are
`1, 1/2, 1/4, 1/8`, all at least `tol`, so the run stops by budget exhaustion
(the warning fires) — yet only `4 ≠ 5` sweeps were performed: the counter
starts at `1`, is incremented after each sweep, and the loop stops at
`iteration_count >= iter_max`, so the budget allows only `iter_max - 1`
sweeps. -/
theorem claim5_counterexample :
    (value_iteration [0] [0] (fun _ _ _ => (1 : ℚ)) (fun _ _ => (1 : ℚ)) (1/2)
        (1/1000000) 5).toOption.map (fun r => (r.warned, r.sweeps)) = some (true, 4) ∧
    (4 : ℕ) ≠ 5 ∧
    (nthSweep [0] [0] (fun _ _ _ => (1 : ℚ)) (fun _ _ => (1 : ℚ)) (1/2) 0).map Prod.snd =
      some 1 ∧
    (nthSweep [0] [0] (fun _ _ _ => (1 : ℚ)) (fun _ _ => (1 : ℚ)) (1/2) 1).map Prod.snd =
      some (1/2) ∧
    (nthSweep [0] [0] (fun _ _ _ => (1 : ℚ)) (fun _ _ => (1 : ℚ)) (1/2) 2).map Prod.snd =
      some (1/4) ∧
    (nthSweep [0] [0] (fun _ _ _ => (1 : ℚ)) (fun _ _ => (1 : ℚ)) (1/2) 3).map Prod.snd =
      some (1/8) ∧
    ((1 : ℚ)/1000000 ≤ 1/8 ∧ (1 : ℚ)/8 ≤ 1/4 ∧ (1 : ℚ)/4 ≤ 1/2 ∧ (1 : ℚ)/2 ≤ 1) := by
  have h0 : nthV [0] [0] (fun _ _ _ => (1 : ℚ)) (fun _ _ => (1 : ℚ)) (1/2) 0 =
      some (fun _ => (0 : ℚ)) := rfl
  have hs0 : sweep [0] [0] (fun _ _ _ => (1 : ℚ)) (fun _ _ => (1 : ℚ)) (1/2)
      (fun _ => (0 : ℚ)) = some (Function.update (fun _ => (0 : ℚ)) 0 1, 1) := by
    norm_num [sweep, sweepGo, listMax, qvalue, Function.update_same]
  have h1 : nthV [0] [0] (fun _ _ _ => (1 : ℚ)) (fun _ _ => (1 : ℚ)) (1/2) 1 =
      some (Function.update (fun _ => (0 : ℚ)) 0 1) := by
    simpa using nthV_succ_of [0] [0] (fun _ _ _ => (1 : ℚ)) (fun _ _ => (1 : ℚ)) (1/2)
      0 _ _ h0 hs0
  have hs1 : sweep [0] [0] (fun _ _ _ => (1 : ℚ)) (fun _ _ => (1 : ℚ)) (1/2)
      (Function.update (fun _ => (0 : ℚ)) 0 1) =
      some (Function.update (Function.update (fun _ => (0 : ℚ)) 0 1) 0 (3/2), 1/2) := by
    norm_num [sweep, sweepGo, listMax, qvalue, Function.update_same]
  have h2 : nthV [0] [0] (fun _ _ _ => (1 : ℚ)) (fun _ _ => (1 : ℚ)) (1/2) 2 =
      some (Function.update (Function.update (fun _ => (0 : ℚ)) 0 1) 0 (3/2)) := by
    simpa using nthV_succ_of [0] [0] (fun _ _ _ => (1 : ℚ)) (fun _ _ => (1 : ℚ)) (1/2)
      1 _ _ h1 hs1
  have hs2 : sweep [0] [0] (fun _ _ _ => (1 : ℚ)) (fun _ _ => (1 : ℚ)) (1/2)
      (Function.update (Function.update (fun _ => (0 : ℚ)) 0 1) 0 (3/2)) =
      some (Function.update (Function.update (Function.update (fun _ => (0 : ℚ)) 0 1)
        0 (3/2)) 0 (7/4), 1/4) := by
    norm_num [sweep, sweepGo, listMax, qvalue, Function.update_same]
  have h3 : nthV [0] [0] (fun _ _ _ => (1 : ℚ)) (fun _ _ => (1 : ℚ)) (1/2) 3 =
      some (Function.update (Function.update (Function.update (fun _ => (0 : ℚ)) 0 1)
        0 (3/2)) 0 (7/4)) := by
    simpa using nthV_succ_of [0] [0] (fun _ _ _ => (1 : ℚ)) (fun _ _ => (1 : ℚ)) (1/2)
      2 _ _ h2 hs2
  have hs3 : sweep [0] [0] (fun _ _ _ => (1 : ℚ)) (fun _ _ => (1 : ℚ)) (1/2)
      (Function.update (Function.update (Function.update (fun _ => (0 : ℚ)) 0 1)
        0 (3/2)) 0 (7/4)) =
      some (Function.update (Function.update (Function.update (Function.update
        (fun _ => (0 : ℚ)) 0 1) 0 (3/2)) 0 (7/4)) 0 (15/8), 1/8) := by
    norm_num [sweep, sweepGo, listMax, qvalue, Function.update_same]
  refine ⟨?_, by omega, ?_, ?_, ?_, ?_, by norm_num⟩
  · rw [value_iteration]
    norm_num
    iterate 5 (try (rw [viLoopF_eq]; norm_num [sweep, sweepGo, listMax, qvalue, Function.update_same, abs_lt]))
    norm_num [extractPolicy, extractGo, maxByKey, qvalue, Function.update_same]
    simp [Except.toOption]
  · rw [nthSweep_of_nthV [0] [0] (fun _ _ _ => (1 : ℚ)) (fun _ _ => (1 : ℚ)) (1/2)
      0 _ h0, hs0]
    rfl
  · rw [nthSweep_of_nthV [0] [0] (fun _ _ _ => (1 : ℚ)) (fun _ _ => (1 : ℚ)) (1/2)
      1 _ h1, hs1]
    rfl
  · rw [nthSweep_of_nthV [0] [0] (fun _ _ _ => (1 : ℚ)) (fun _ _ => (1 : ℚ)) (1/2)
      2 _ h2, hs2]
    rfl
  · rw [nthSweep_of_nthV [0] [0] (fun _ _ _ => (1 : ℚ)) (fun _ _ => (1 : ℚ)) (1/2)
      3 _ h3, hs3]
    rfl

/-- C5 amended: on every run with `gamma` in `(0,1)` and non-empty `A` in
which no executed sweep has `delta` below `tol` — the executed sweeps beyond
the first are the sweep numbers `k` with `k + 1 < iter_max`, the ones the
budget allows, and those are the ones the hypothesis constrains —
`value_iteration` succeeds and performs exactly `max 1 (iter_max - 1)`
sweeps: one sweep always runs (`while True`), and the counter, starting at
`1` and checked after the post-sweep increment, allows only `iter_max - 1`
sweeps in total. -/
theorem claim5_sweep_count_amended (σ α : Type) [DecidableEq σ]
    (S : List σ) (A : List α) (P : σ → σ → α → ℚ) (R : σ → α → ℚ)
    (gamma tol : ℚ) (iter_max : ℕ)
    (hgamma : 0 < gamma ∧ gamma < 1) (hA : A ≠ [])
    (hnc : ∀ (k : ℕ) (p : (σ → ℚ) × ℚ), k + 1 < iter_max →
      nthSweep S A P R gamma k = some p → tol ≤ p.2) :
    ∃ r, value_iteration S A P R gamma tol iter_max = Except.ok r ∧
      r.sweeps = max 1 (iter_max - 1) := by
  obtain ⟨lr, hlr, hsw⟩ := viLoopF_count S A P R gamma tol iter_max hA hnc
    iter_max 0 (fun _ => 0) rfl (by omega)
  obtain ⟨pol, hpol⟩ := extractGo_some S A P R gamma hA lr.V S (fun _ => none)
  refine ⟨⟨pol, lr.V, lr.warned, lr.sweeps⟩, ?_, ?_⟩
  · exact value_iteration_ok_of S A P R gamma tol iter_max hgamma lr pol hlr hpol
  · simpa using hsw

/-- Instance of `claim5_sweep_count_amended` at the same input as the
counterexample — `gamma = 1/2`, `tol = 1/1000000`, `iter_max = 5`: the sweeps
the budget allows (`k + 1 < 5`) have deltas `1, 1/2, 1/4, 1/8`, all at least
`tol`, and the run performs `max 1 (5 - 1) = 4` sweeps. -/
theorem claim5_witness :
    ∃ r, value_iteration [0] [0] (fun _ _ _ => (1 : ℚ)) (fun _ _ => (1 : ℚ)) (1/2)
        (1/1000000) 5 = Except.ok r ∧ r.sweeps = max 1 (5 - 1) :=
  claim5_sweep_count_amended ℕ ℕ [0] [0] (fun _ _ _ => (1 : ℚ)) (fun _ _ => (1 : ℚ))
    (1/2) (1/1000000) 5 (by norm_num) (by simp)
    (by
      have h0 : nthV [0] [0] (fun _ _ _ => (1 : ℚ)) (fun _ _ => (1 : ℚ)) (1/2) 0 =
          some (fun _ => (0 : ℚ)) := rfl
      have hs0 : sweep [0] [0] (fun _ _ _ => (1 : ℚ)) (fun _ _ => (1 : ℚ)) (1/2)
          (fun _ => (0 : ℚ)) = some (Function.update (fun _ => (0 : ℚ)) 0 1, 1) := by
        norm_num [sweep, sweepGo, listMax, qvalue, Function.update_same]
      have h1 : nthV [0] [0] (fun _ _ _ => (1 : ℚ)) (fun _ _ => (1 : ℚ)) (1/2) 1 =
          some (Function.update (fun _ => (0 : ℚ)) 0 1) := by
        simpa using nthV_succ_of [0] [0] (fun _ _ _ => (1 : ℚ)) (fun _ _ => (1 : ℚ))
          (1/2) 0 _ _ h0 hs0
      have hs1 : sweep [0] [0] (fun _ _ _ => (1 : ℚ)) (fun _ _ => (1 : ℚ)) (1/2)
          (Function.update (fun _ => (0 : ℚ)) 0 1) =
          some (Function.update (Function.update (fun _ => (0 : ℚ)) 0 1) 0 (3/2), 1/2) := by
        norm_num [sweep, sweepGo, listMax, qvalue, Function.update_same]
      have h2 : nthV [0] [0] (fun _ _ _ => (1 : ℚ)) (fun _ _ => (1 : ℚ)) (1/2) 2 =
          some (Function.update (Function.update (fun _ => (0 : ℚ)) 0 1) 0 (3/2)) := by
        simpa using nthV_succ_of [0] [0] (fun _ _ _ => (1 : ℚ)) (fun _ _ => (1 : ℚ))
          (1/2) 1 _ _ h1 hs1
      have hs2 : sweep [0] [0] (fun _ _ _ => (1 : ℚ)) (fun _ _ => (1 : ℚ)) (1/2)
          (Function.update (Function.update (fun _ => (0 : ℚ)) 0 1) 0 (3/2)) =
          some (Function.update (Function.update (Function.update (fun _ => (0 : ℚ)) 0 1)
            0 (3/2)) 0 (7/4), 1/4) := by
        norm_num [sweep, sweepGo, listMax, qvalue, Function.update_same]
      have h3 : nthV [0] [0] (fun _ _ _ => (1 : ℚ)) (fun _ _ => (1 : ℚ)) (1/2) 3 =
          some (Function.update (Function.update (Function.update (fun _ => (0 : ℚ)) 0 1)
            0 (3/2)) 0 (7/4)) := by
        simpa using nthV_succ_of [0] [0] (fun _ _ _ => (1 : ℚ)) (fun _ _ => (1 : ℚ))
          (1/2) 2 _ _ h2 hs2
      have hs3 : sweep [0] [0] (fun _ _ _ => (1 : ℚ)) (fun _ _ => (1 : ℚ)) (1/2)
          (Function.update (Function.update (Function.update (fun _ => (0 : ℚ)) 0 1)
            0 (3/2)) 0 (7/4)) =
          some (Function.update (Function.update (Function.update (Function.update
            (fun _ => (0 : ℚ)) 0 1) 0 (3/2)) 0 (7/4)) 0 (15/8), 1/8) := by
        norm_num [sweep, sweepGo, listMax, qvalue, Function.update_same]
      intro k p hk h
      have hk4 : k < 4 := by omega
      interval_cases k
      · rw [nthSweep_of_nthV [0] [0] (fun _ _ _ => (1 : ℚ)) (fun _ _ => (1 : ℚ)) (1/2)
          0 _ h0, hs0] at h
        injection h with h
        subst h
        norm_num
      · rw [nthSweep_of_nthV [0] [0] (fun _ _ _ => (1 : ℚ)) (fun _ _ => (1 : ℚ)) (1/2)
          1 _ h1, hs1] at h
        injection h with h
        subst h
        norm_num
      · rw [nthSweep_of_nthV [0] [0] (fun _ _ _ => (1 : ℚ)) (fun _ _ => (1 : ℚ)) (1/2)
          2 _ h2, hs2] at h
        injection h with h
        subst h
        norm_num
      · rw [nthSweep_of_nthV [0] [0] (fun _ _ _ => (1 : ℚ)) (fun _ _ => (1 : ℚ)) (1/2)
          3 _ h3, hs3] at h
        injection h with h
        subst h
        norm_num)

/-- C6 counterexample: single-state MDP with `R = 0`, `gamma = 1/2`,
`tol = 1`, `iter_max = 2`.  The very first sweep already has
`delta = 0 < tol` — the run converges, the budget is not exhausted *before*
convergence — yet the warning is emitted, because the code checks
`iteration_count >= iter_max` (here `2 >= 2`) independently of whether
`delta < tol` also holds on that same sweep. -/
theorem claim6_counterexample :
    (value_iteration [0] [0] (fun _ _ _ => (1 : ℚ)) (fun _ _ => (0 : ℚ)) (1/2) 1 2).toOption.map
      (fun r => (r.warned, r.sweeps)) = some (true, 1) ∧
    (nthSweep [0] [0] (fun _ _ _ => (1 : ℚ)) (fun _ _ => (0 : ℚ)) (1/2) 0).map Prod.snd =
      some 0 ∧
    (0 : ℚ) < 1 := by
  have h0 : nthV [0] [0] (fun _ _ _ => (1 : ℚ)) (fun _ _ => (0 : ℚ)) (1/2) 0 =
      some (fun _ => (0 : ℚ)) := rfl
  have hs0 : sweep [0] [0] (fun _ _ _ => (1 : ℚ)) (fun _ _ => (0 : ℚ)) (1/2)
      (fun _ => (0 : ℚ)) = some (Function.update (fun _ => (0 : ℚ)) 0 0, 0) := by
    norm_num [sweep, sweepGo, listMax, qvalue, Function.update_same]
  refine ⟨?_, ?_, by norm_num⟩
  · rw [value_iteration]
    norm_num
    iterate 2 (try (rw [viLoopF_eq]; norm_num [sweep, sweepGo, listMax, qvalue, Function.update_same, abs_lt]))
    norm_num [extractPolicy, extractGo, maxByKey, qvalue, Function.update_same]
    simp [Except.toOption]
  · rw [nthSweep_of_nthV [0] [0] (fun _ _ _ => (1 : ℚ)) (fun _ _ => (0 : ℚ)) (1/2)
      0 _ h0, hs0]
    rfl

/-- C6 amended: on every run with `gamma` in `(0,1)` and non-empty `A`, the
call succeeds (the warning is non-fatal and the estimates are returned), and
the warning is emitted exactly when the final `iteration_count` — its start
value `1` plus one increment per executed sweep — has reached `iter_max`;
in particular it also fires when `delta < tol` first holds on the very sweep
that exhausts the budget. -/
theorem claim6_warning_amended (σ α : Type) [DecidableEq σ]
    (S : List σ) (A : List α) (P : σ → σ → α → ℚ) (R : σ → α → ℚ)
    (gamma tol : ℚ) (iter_max : ℕ)
    (hgamma : 0 < gamma ∧ gamma < 1) (hA : A ≠ []) :
    ∃ r, value_iteration S A P R gamma tol iter_max = Except.ok r ∧
      (r.warned = true ↔ iter_max ≤ 1 + r.sweeps) := by
  obtain ⟨lr, hlr⟩ := viLoopF_some S A P R gamma tol iter_max hA
    iter_max (fun _ => 0) 1 (by omega)
  obtain ⟨pol, hpol⟩ := extractGo_some S A P R gamma hA lr.V S (fun _ => none)
  refine ⟨⟨pol, lr.V, lr.warned, lr.sweeps⟩, ?_, ?_⟩
  · exact value_iteration_ok_of S A P R gamma tol iter_max hgamma lr pol hlr hpol
  · have := viLoopF_warned S A P R gamma tol iter_max iter_max (fun _ => 0) 1 lr hlr
    simpa [Nat.add_comm] using this

/-- Instance of `claim6_warning_amended` at a concrete input. -/
theorem claim6_witness :
    ∃ r, value_iteration [0] [0] (fun _ _ _ => (1 : ℚ)) (fun _ _ => (0 : ℚ)) (1/2) 1 2 =
        Except.ok r ∧ (r.warned = true ↔ 2 ≤ 1 + r.sweeps) :=
  claim6_warning_amended ℕ ℕ [0] [0] (fun _ _ _ => (1 : ℚ)) (fun _ _ => (0 : ℚ))
    (1/2) 1 2 (by norm_num) (by simp)

/-- C7: the single-state MDP `S = {s0}`, `A = {a0}`, `P(s0,s0,a0) = 1`,
`R(s0,a0) = 1`, `gamma = 1/2`, with the default `tol = 1/1000000` and
`iter_max = 1000`: the run converges without warning, the returned value of
`s0` is `2097151/1048576 = 2 - 2^(-20)`, within tolerance of
`1/(1 - 1/2) = 2`, and the returned policy picks `a0`. -/
theorem claim7_single_state_mdp :
    (value_iteration [0] [0] (fun _ _ _ => (1 : ℚ)) (fun _ _ => (1 : ℚ)) (1/2)
        (1/1000000) 1000).toOption.map (fun r => (r.V 0, r.policy 0, r.warned)) =
      some (2097151/1048576, some 0, false) ∧
    |(2097151 : ℚ)/1048576 - 1/(1 - 1/2)| < 1/1000000 ∧
    ((1 : ℚ)/(1 - 1/2) = 2) := by
  refine ⟨?_, by norm_num [abs_lt], by norm_num⟩
  rw [value_iteration]
  norm_num
  iterate 22 (try (rw [viLoopF_eq]; norm_num [sweep, sweepGo, listMax, qvalue, Function.update_same, abs_lt]))
  norm_num [extractPolicy, extractGo, maxByKey, qvalue, Function.update_same]
  simp [Except.toOption]

/-- C8: `value_iteration` is deterministic — two calls on equal inputs
(same state and action lists, hence the same iteration orders, and the same
`P`, `R`, `gamma`, `tol`, `iter_max`) return equal results. -/
theorem claim8_deterministic (σ α : Type) [DecidableEq σ]
    (S₁ S₂ : List σ) (A₁ A₂ : List α)
    (P₁ P₂ : σ → σ → α → ℚ) (R₁ R₂ : σ → α → ℚ)
    (g₁ g₂ t₁ t₂ : ℚ) (m₁ m₂ : ℕ)
    (hS : S₁ = S₂) (hA : A₁ = A₂) (hP : P₁ = P₂) (hR : R₁ = R₂)
    (hg : g₁ = g₂) (ht : t₁ = t₂) (hm : m₁ = m₂) :
    value_iteration S₁ A₁ P₁ R₁ g₁ t₁ m₁ = value_iteration S₂ A₂ P₂ R₂ g₂ t₂ m₂ := by
  subst hS
  subst hA
  subst hP
  subst hR
  subst hg
  subst ht
  subst hm
  rfl

/-- Instance of `claim8_deterministic` at a concrete input. -/
theorem claim8_witness :
    value_iteration [0] [0] (fun _ _ _ => (1 : ℚ)) (fun _ _ => (1 : ℚ)) (1/2) 1 3 =
      value_iteration [0] [0] (fun _ _ _ => (1 : ℚ)) (fun _ _ => (1 : ℚ)) (1/2) 1 3 :=
  claim8_deterministic ℕ ℕ [0] [0] [0] [0] (fun _ _ _ => 1) (fun _ _ => 1)
    (fun _ _ => 1) (fun _ _ => 1) (1/2) (1/2) 1 1 3 3 rfl rfl rfl rfl rfl rfl rfl

/-- C9: with a non-empty state list and an empty action list (and valid
`gamma`), the `max(action_values)` of the first state is `max([])`, the Python
`ValueError`: the call errors instead of returning. -/
theorem claim9_empty_actions (σ α : Type) [DecidableEq σ]
    (S : List σ) (hS : S ≠ []) (P : σ → σ → α → ℚ) (R : σ → α → ℚ)
    (gamma tol : ℚ) (iter_max : ℕ) (hgamma : 0 < gamma ∧ gamma < 1) :
    value_iteration S ([] : List α) P R gamma tol iter_max =
      Except.error VIError.emptyMax := by
  cases S with
  | nil => exact absurd rfl hS
  | cons s rest =>
    have hsweep : sweep (s :: rest) ([] : List α) P R gamma (fun _ => 0) = none :=
      sweep_empty_actions (s :: rest) P R gamma (fun _ => 0) s rest rfl
    have hloop : viLoopF (s :: rest) ([] : List α) P R gamma tol iter_max iter_max
        (fun _ => 0) 1 = none := by
      cases iter_max with
      | zero => simp only [viLoopF, hsweep]
      | succ n => simp only [viLoopF, hsweep]
    simp only [value_iteration, if_pos hgamma, hloop]

/-- Instance of `claim9_empty_actions` at a concrete input. -/
theorem claim9_witness :
    value_iteration [0] ([] : List ℕ) (fun _ _ _ => (1 : ℚ)) (fun _ _ => (1 : ℚ))
      (1/2) 1 5 = Except.error VIError.emptyMax :=
  claim9_empty_actions ℕ ℕ [0] (by simp) (fun _ _ _ => 1) (fun _ _ => 1) (1/2) 1 5
    (by norm_num)

/-- C10: with an empty state list, valid `gamma`, positive `tol` and
`iter_max > 2`, the call succeeds with no warning after a single (empty)
sweep whose `delta` stays `0 < tol`, returning the empty policy and value
mappings (all-`None` and all-zero in the function model). -/
theorem claim10_empty_states (σ α : Type) [DecidableEq σ] (A : List α)
    (P : σ → σ → α → ℚ) (R : σ → α → ℚ) (gamma tol : ℚ) (iter_max : ℕ)
    (hgamma : 0 < gamma ∧ gamma < 1) (htol : 0 < tol) (hm : 2 < iter_max) :
    ∃ r, value_iteration ([] : List σ) A P R gamma tol iter_max = Except.ok r ∧
      r.warned = false ∧ r.sweeps = 1 ∧
      (∀ s, r.policy s = none) ∧ (∀ s, r.V s = 0) := by
  have hsweep : sweep ([] : List σ) A P R gamma (fun _ => 0) =
      some ((fun _ => 0), 0) := rfl
  have hloop : viLoopF ([] : List σ) A P R gamma tol iter_max iter_max
      (fun _ => 0) 1 = some ⟨fun _ => 0, false, 1⟩ := by
    rw [viLoopF_eq]
    simp only [hsweep]
    rw [if_pos (Or.inl htol), if_neg (by omega : ¬(iter_max ≤ 1 + 1))]
  have hpol : extractPolicy ([] : List σ) A P R gamma (fun _ => (0 : ℚ)) =
      some (fun _ => none) := rfl
  refine ⟨⟨fun _ => none, fun _ => 0, false, 1⟩, ?_, rfl, rfl, fun s => rfl, fun s => rfl⟩
  exact value_iteration_ok_of ([] : List σ) A P R gamma tol iter_max hgamma
    ⟨fun _ => 0, false, 1⟩ (fun _ => none) hloop hpol

/-- Instance of `claim10_empty_states` at a concrete input. -/
theorem claim10_witness :
    ∃ r, value_iteration ([] : List ℕ) [0] (fun _ _ _ => (1 : ℚ)) (fun _ _ => (1 : ℚ))
        (1/2) 1 3 = Except.ok r ∧
      r.warned = false ∧ r.sweeps = 1 ∧
      (∀ s, r.policy s = none) ∧ (∀ s, r.V s = 0) :=
  claim10_empty_states ℕ ℕ [0] (fun _ _ _ => 1) (fun _ _ => 1) (1/2) 1 3
    (by norm_num) (by norm_num) (by norm_num)

/-- Concrete successful run used to instantiate the policy-extraction claim:
single-state MDP, `tol = 2`, so the run stops after one sweep with
`V[0] = 1` and `policy[0] = 0`. -/
def wRes : VIResult ℕ ℕ :=
  ⟨Function.update (fun _ => none) 0 (some 0), Function.update (fun _ => (0 : ℚ)) 0 1,
    false, 1⟩

/-- The run producing `wRes`. -/
theorem wRes_run :
    value_iteration [0] [0] (fun _ _ _ => (1 : ℚ)) (fun _ _ => (1 : ℚ)) (1/2) 2 5 =
      Except.ok wRes := by
  rw [value_iteration]
  norm_num
  iterate 2 (try (rw [viLoopF_eq]; norm_num [sweep, sweepGo, listMax, qvalue, Function.update_same, abs_lt]))
  norm_num [extractPolicy, extractGo, maxByKey, qvalue, Function.update_same, wRes]

/-- Instance of `claim3_greedy_policy_extraction` at a concrete run. -/
theorem claim3_witness :
    extractPolicy [0] [0] (fun _ _ _ => (1 : ℚ)) (fun _ _ => (1 : ℚ)) (1/2) wRes.V =
      some wRes.policy ∧
    ∀ s ∈ [0], ∃ b, wRes.policy s = some b ∧
      isFirstArgmax
        (fun a => qvalue [0] (fun _ _ _ => (1 : ℚ)) (fun _ _ => (1 : ℚ)) (1/2) wRes.V s a)
        [0] b :=
  claim3_greedy_policy_extraction ℕ ℕ [0] [0] (fun _ _ _ => (1 : ℚ))
    (fun _ _ => (1 : ℚ)) (1/2) 2 5 wRes wRes_run

end Claims

end ValueIteration
